import Mathlib

/-!
# Verification of the tableaux schema-driven SQL engine

A shallow embedding of the core of the `tableaux` Go repository
(schema resolution, path grammar, join planning, filter/order compilation,
enum translation) together with proofs and refutations of the specification
claims about it.

Go strings are modelled as `List Char`: UTF-8 byte order agrees with
code-point order, so Go's byte-wise string comparison and prefix tests agree
with the `List Char` versions used here.  Go `panic` sites are modelled by
`Option` (`none` = aborted) or a dedicated failure value.  Go maps are
modelled by association lists where the *last* binding wins (matching Go's
"insert overwrites" semantics); map iteration order, which Go leaves
unspecified, only ever feeds results that are subsequently sorted or that
the theorems restrict to the single-bucket case.
-/

namespace Tableaux

/-- Go strings, as their character sequences. -/
abbrev GoStr := List Char

/-- Shorthand for embedding literal Go strings. -/
def gs (s : String) : GoStr := s.toList

/-! ## ASCII character facts

Lean's `Char.toLower`/`Char.toUpper` only map the ASCII range, whereas Go's
`strings.ToLower`/`ToUpper` are Unicode aware; every character these models
feed through case conversion is ASCII (the path grammar operates on
`[A-Za-z_]` and the regexes below only ever insert `_`), where the two
agree. -/

theorem charToNat_ofNat {n : Nat} (h : n.isValidChar) : (Char.ofNat n).toNat = n := by
  simp only [Char.ofNat, h, dite_true, Char.ofNatAux, Char.toNat, UInt32.toNat]
  simp

theorem isUpper_bounds {c : Char} (h : c.isUpper = true) : 65 ≤ c.toNat ∧ c.toNat ≤ 90 := by
  simp only [Char.isUpper, ge_iff_le, Bool.and_eq_true, decide_eq_true_eq] at h
  exact ⟨UInt32.le_toNat_of_le (by decide) h.1, UInt32.toNat_le_of_le (by decide) h.2⟩

theorem isLower_bounds {c : Char} (h : c.isLower = true) : 97 ≤ c.toNat ∧ c.toNat ≤ 122 := by
  simp only [Char.isLower, ge_iff_le, Bool.and_eq_true, decide_eq_true_eq] at h
  exact ⟨UInt32.le_toNat_of_le (by decide) h.1, UInt32.toNat_le_of_le (by decide) h.2⟩

theorem bounds_isLower {c : Char} (h1 : 97 ≤ c.toNat) (h2 : c.toNat ≤ 122) :
    c.isLower = true := by
  simp only [Char.isLower, ge_iff_le, Bool.and_eq_true, decide_eq_true_eq]
  rw [UInt32.le_def, UInt32.le_def, BitVec.le_def, BitVec.le_def]
  simp only [Char.toNat, UInt32.toNat] at h1 h2
  exact ⟨h1, h2⟩

theorem bounds_isUpper {c : Char} (h1 : 65 ≤ c.toNat) (h2 : c.toNat ≤ 90) :
    c.isUpper = true := by
  simp only [Char.isUpper, ge_iff_le, Bool.and_eq_true, decide_eq_true_eq]
  rw [UInt32.le_def, UInt32.le_def, BitVec.le_def, BitVec.le_def]
  simp only [Char.toNat, UInt32.toNat] at h1 h2
  exact ⟨h1, h2⟩

theorem ne_of_toNat_ne {c d : Char} (h : c.toNat ≠ d.toNat) : c ≠ d :=
  fun e => h (e ▸ rfl)

theorem lower_not_upper {c : Char} (h : c.isLower = true) : c.isUpper = false := by
  obtain ⟨h1, _⟩ := isLower_bounds h
  by_contra hb
  have hu : c.isUpper = true := Bool.not_eq_false _ |>.mp hb
  have := (isUpper_bounds hu).2
  omega

theorem lower_ne_newline {c : Char} (h : c.isLower = true) : c ≠ '\n' := by
  obtain ⟨h1, _⟩ := isLower_bounds h
  have hn : ('\n').toNat = 10 := by decide
  exact ne_of_toNat_ne (by omega)

theorem lower_ne_underscore {c : Char} (h : c.isLower = true) : c ≠ '_' := by
  obtain ⟨h1, _⟩ := isLower_bounds h
  have hn : ('_').toNat = 95 := by decide
  exact ne_of_toNat_ne (by omega)

theorem toLower_eq_of_upper {c : Char} (h : c.isUpper = true) :
    c.toLower = Char.ofNat (c.toNat + 32) := by
  obtain ⟨h1, h2⟩ := isUpper_bounds h
  simp only [Char.toLower, if_pos (And.intro h1 h2)]

theorem toNat_toLower_of_upper {c : Char} (h : c.isUpper = true) :
    c.toLower.toNat = c.toNat + 32 := by
  obtain ⟨h1, h2⟩ := isUpper_bounds h
  rw [toLower_eq_of_upper h]
  exact charToNat_ofNat (Or.inl (by omega))

theorem isLower_toLower_of_upper {c : Char} (h : c.isUpper = true) :
    c.toLower.isLower = true := by
  obtain ⟨h1, h2⟩ := isUpper_bounds h
  have := toNat_toLower_of_upper h
  exact bounds_isLower (by omega) (by omega)

theorem toUpper_toLower_of_upper {c : Char} (h : c.isUpper = true) :
    c.toLower.toUpper = c := by
  obtain ⟨h1, h2⟩ := isUpper_bounds h
  have ht := toNat_toLower_of_upper h
  simp only [Char.toUpper, ht]
  rw [if_pos (by omega)]
  have he : c.toNat + 32 - 32 = c.toNat := by omega
  rw [he, Char.ofNat_toNat]

theorem toLower_eq_self_of_lower {c : Char} (h : c.isLower = true) : c.toLower = c := by
  obtain ⟨h1, _⟩ := isLower_bounds h
  simp only [Char.toLower]
  rw [if_neg]
  omega

/-! ## Path grammar (`datasource/sqlsource/util/utils.go`)

`DescriptorToIdentifier` runs
`regexp.MustCompile("([A-Z].+?)").ReplaceAllString(descriptor, "_${1}")`
and lower-cases the result; the pattern matches an ASCII upper-case letter
together with exactly one following character (the lazy `.+?` matches a
single character, and `.` does not match a newline); scanning resumes after
each match, so matches never overlap.  `IdentifierToDescriptor` runs
`regexp.MustCompile("(_[a-z])")` and upper-cases the letter of each match. -/

/-- The replacement pass of `DescriptorToIdentifier` before lower-casing. -/
def upperExpand : GoStr → GoStr
  | [] => []
  | [c] => [c]
  | c :: d :: rest =>
    if c.isUpper ∧ d ≠ '\n' then '_' :: c :: d :: upperExpand rest
    else c :: upperExpand (d :: rest)

/-- `util.DescriptorToIdentifier`. -/
def DescriptorToIdentifier (s : GoStr) : GoStr := (upperExpand s).map Char.toLower

/-- `util.IdentifierToDescriptor`: each `_x` with `x ∈ [a-z]` becomes `X`. -/
def IdentifierToDescriptor : GoStr → GoStr
  | [] => []
  | [c] => [c]
  | c :: d :: rest =>
    if c = '_' ∧ d.isLower then d.toUpper :: IdentifierToDescriptor rest
    else c :: IdentifierToDescriptor (d :: rest)

theorem upperExpand_cons_not {c : Char} (h : c.isUpper = false) (l : GoStr) :
    upperExpand (c :: l) = c :: upperExpand l := by
  cases l with
  | nil => rfl
  | cons d rest => rw [upperExpand, if_neg (by simp [h])]

theorem upperExpand_upper {c d : Char} (hc : c.isUpper = true) (hd : d ≠ '\n') (l : GoStr) :
    upperExpand (c :: d :: l) = '_' :: c :: d :: upperExpand l := by
  rw [upperExpand, if_pos ⟨hc, hd⟩]

theorem collapse_cons_ne {c : Char} (h : ¬ c = '_') (l : GoStr) :
    IdentifierToDescriptor (c :: l) = c :: IdentifierToDescriptor l := by
  cases l with
  | nil => rfl
  | cons d rest => rw [IdentifierToDescriptor, if_neg (by simp [h])]

theorem collapse_und {d : Char} (hd : d.isLower = true) (l : GoStr) :
    IdentifierToDescriptor ('_' :: d :: l) = d.toUpper :: IdentifierToDescriptor l := by
  rw [IdentifierToDescriptor, if_pos ⟨rfl, hd⟩]

/-- The strings on which the two conversions round-trip: concatenations of
blocks that are a lower-case letter, an upper-case letter immediately
followed by a lower-case letter, or `_` immediately followed by an
upper-case letter and then a lower-case letter. -/
inductive RoundTrippable : GoStr → Prop
  | nil : RoundTrippable []
  | low {c : Char} {rest : GoStr} : c.isLower = true → RoundTrippable rest →
      RoundTrippable (c :: rest)
  | up {c d : Char} {rest : GoStr} : c.isUpper = true → d.isLower = true →
      RoundTrippable rest → RoundTrippable (c :: d :: rest)
  | und {u d : Char} {rest : GoStr} : u.isUpper = true → d.isLower = true →
      RoundTrippable rest → RoundTrippable ('_' :: u :: d :: rest)

/-- **C2 (counterexample).**  The claimed round-trip fails on `"a_b"`, a
string of ASCII letters and `_` with no leading and no doubled underscore:
`DescriptorToIdentifier` leaves it unchanged, and `IdentifierToDescriptor`
then rewrites `_b` to `B`. -/
theorem c2_roundtrip_counterexample :
    IdentifierToDescriptor (DescriptorToIdentifier (gs "a_b")) = gs "aB" ∧
      gs "aB" ≠ gs "a_b" := by
  constructor
  · rfl
  · decide

/-- **C2 (amended).**  `IdentifierToDescriptor ∘ DescriptorToIdentifier` is
the identity on strings in which every `_` is immediately followed by an
upper-case letter and every upper-case letter is immediately followed by a
lower-case letter (`RoundTrippable`); it is not the identity on all strings
of letters and `_` without leading or doubled underscores. -/
theorem c2_roundtrip_amended {s : GoStr} (h : RoundTrippable s) :
    IdentifierToDescriptor (DescriptorToIdentifier s) = s := by
  induction h with
  | nil => rfl
  | low hc _ ih =>
    rename_i c rest _
    unfold DescriptorToIdentifier at *
    rw [upperExpand_cons_not (lower_not_upper hc), List.map_cons,
      toLower_eq_self_of_lower hc, collapse_cons_ne (lower_ne_underscore hc), ih]
  | up hc hd _ ih =>
    rename_i c d rest _
    unfold DescriptorToIdentifier at *
    rw [upperExpand_upper hc (lower_ne_newline hd), List.map_cons, List.map_cons,
      List.map_cons]
    have hlu : Char.toLower '_' = '_' := by decide
    rw [hlu, toLower_eq_self_of_lower hd,
      collapse_und (isLower_toLower_of_upper hc), toUpper_toLower_of_upper hc,
      collapse_cons_ne (lower_ne_underscore hd), ih]
  | und hu hd _ ih =>
    rename_i u d rest _
    unfold DescriptorToIdentifier at *
    have h1 : Char.isUpper '_' = false := by decide
    rw [upperExpand_cons_not h1, upperExpand_upper hu (lower_ne_newline hd),
      List.map_cons, List.map_cons, List.map_cons, List.map_cons]
    have hlu : Char.toLower '_' = '_' := by decide
    rw [hlu, toLower_eq_self_of_lower hd]
    have h2 : IdentifierToDescriptor
        ('_' :: '_' :: u.toLower :: d :: (upperExpand rest).map Char.toLower) =
        '_' :: IdentifierToDescriptor ('_' :: u.toLower :: d ::
          (upperExpand rest).map Char.toLower) := by
      rw [IdentifierToDescriptor, if_neg (by decide)]
    rw [h2, collapse_und (isLower_toLower_of_upper hu), toUpper_toLower_of_upper hu,
      collapse_cons_ne (lower_ne_underscore hd), ih]

/-- Witness for C2 (amended) at `"ab_Cd"`. -/
theorem c2_roundtrip_amended_witness :
    IdentifierToDescriptor (DescriptorToIdentifier (gs "ab_Cd")) = gs "ab_Cd" :=
  c2_roundtrip_amended
    (RoundTrippable.low (by decide)
      (RoundTrippable.low (by decide)
        (RoundTrippable.und (by decide) (by decide) RoundTrippable.nil)))

/-! ## Go string ordering

`sort.Strings` compares Go strings byte-wise; on the `List Char` model this
is code-point lexicographic order. -/

def lexLe : GoStr → GoStr → Bool
  | [], _ => true
  | _ :: _, [] => false
  | a :: as, b :: bs => if a = b then lexLe as bs else decide (a < b)

theorem lexLe_total : ∀ a b : GoStr, lexLe a b = true ∨ lexLe b a = true
  | [], _ => Or.inl rfl
  | _ :: _, [] => Or.inr rfl
  | a :: as, b :: bs => by
    by_cases hab : a = b
    · subst hab
      simpa [lexLe] using lexLe_total as bs
    · rcases lt_or_gt_of_ne hab with h | h
      · exact Or.inl (by simp [lexLe, hab, h])
      · exact Or.inr (by simp [lexLe, Ne.symm hab, h, not_lt_of_gt h])

theorem lexLe_trans : ∀ {a b c : GoStr},
    lexLe a b = true → lexLe b c = true → lexLe a c = true
  | [], _, _, _, _ => rfl
  | _ :: _, [], _, h, _ => by simp [lexLe] at h
  | _ :: _, _ :: _, [], _, h => by simp [lexLe] at h
  | a :: as, b :: bs, c :: cs, h1, h2 => by
    by_cases hab : a = b <;> by_cases hbc : b = c
    · subst hab; subst hbc
      simp only [lexLe, if_pos rfl] at h1 h2 ⊢
      exact lexLe_trans h1 h2
    · subst hab
      simpa [lexLe, hbc] using h2
    · subst hbc
      simpa [lexLe, hab] using h1
    · simp only [lexLe, if_neg hab, decide_eq_true_eq] at h1
      simp only [lexLe, if_neg hbc, decide_eq_true_eq] at h2
      have hac : a < c := lt_trans h1 h2
      simp [lexLe, ne_of_lt hac, hac]

theorem lexLe_antisymm : ∀ {a b : GoStr},
    lexLe a b = true → lexLe b a = true → a = b
  | [], [], _, _ => rfl
  | [], _ :: _, _, h => by simp [lexLe] at h
  | _ :: _, [], h, _ => by simp [lexLe] at h
  | a :: as, b :: bs, h1, h2 => by
    by_cases hab : a = b
    · subst hab
      simp only [lexLe, if_pos rfl] at h1 h2
      rw [lexLe_antisymm h1 h2]
    · simp only [lexLe, if_neg hab, decide_eq_true_eq] at h1
      simp only [lexLe, if_neg (Ne.symm hab), decide_eq_true_eq] at h2
      exact absurd h2 (not_lt_of_gt h1)

/-- `sort.Strings` order as a proposition. -/
def StrLe (a b : GoStr) : Prop := lexLe a b = true

instance : DecidableRel StrLe := fun a b => instDecidableEqBool (lexLe a b) true

instance : IsTotal GoStr StrLe := ⟨lexLe_total⟩

instance : IsTrans GoStr StrLe := ⟨fun _ _ _ => lexLe_trans⟩

instance : IsAntisymm GoStr StrLe := ⟨fun _ _ => lexLe_antisymm⟩

/-! ## Schema model and resolution (`config`, `part_007`) -/

/-- `config.TableSchemaColumn` (the `FrontendHints` payload plays no role in
any modelled computation and is omitted; `Type` is rendered `colType`). -/
structure TableSchemaColumn where
  title : GoStr
  path : GoStr
  colType : GoStr
  filter : GoStr
  order : GoStr
  pathResolver : GoStr
deriving DecidableEq

/-- The Go zero value of `TableSchemaColumn`. -/
def zeroColumn : TableSchemaColumn := ⟨[], [], [], [], [], []⟩

/-- `config.TableSchemaExtensionTable`. -/
structure TableSchemaExtensionTable where
  title : GoStr
  table : GoStr
  key : GoStr
deriving DecidableEq

/-- `config.TableSchema` (`TableSchemaExclusion` is a plain string wrapper). -/
structure TableSchema where
  entity : GoStr
  extensions : List TableSchemaExtensionTable
  exclusions : List GoStr
  columns : List TableSchemaColumn
deriving DecidableEq

/-- Lookup in a Go map modelled as an association list: the last binding for
a key wins, matching Go's insert-overwrites semantics. -/
def goMapFind {β : Type} (m : List (GoStr × β)) (k : GoStr) : Option β :=
  m.foldl (fun acc e => if e.1 = k then some e.2 else acc) none

/-- Go `strings.TrimPrefix`. -/
def goTrimPre (s pre : GoStr) : GoStr :=
  if pre.isPrefixOf s then s.drop pre.length else s

/-- The tail of `s` after its first `'_'`, `none` when there is none
(`strings.Index(s, "_")` returning `-1`). -/
def afterFirstUnderscore : GoStr → Option GoStr
  | [] => none
  | c :: rest => if c = '_' then some rest else afterFirstUnderscore rest

/-- `config.resolveColumnWithPrefix`: under a non-empty substitution value
the part of the path before (and including) the first `'_'` is replaced by
the substitution plus `'_'`; a path without `'_'` is kept whole. -/
def resolveColumnWithPrefix (column : TableSchemaColumn) (pfx : GoStr) :
    TableSchemaColumn :=
  if pfx ≠ [] then
    { column with path := pfx ++ '_' :: (afterFirstUnderscore column.path).getD column.path }
  else column

/-- `config.resolveColumnsWithPrefix`, with explicit recursion fuel: the Go
code performs no cycle detection, so extension cycles diverge — modelled by
`none` on fuel exhaustion.  Unresolvable extension targets also yield `none`
(`UnresolvableSchemaError`). -/
def resolveColumnsWithPrefix : Nat → TableSchema → List (GoStr × TableSchema) → GoStr →
    Option (List TableSchemaColumn)
  | 0, _, _, _ => none
  | fuel + 1, schema, allSchemas, pfx =>
    schema.extensions.foldlM
      (fun acc ext =>
        match goMapFind allSchemas ext.table with
        | none => none
        | some target =>
          let es := if pfx ≠ [] then pfx else schema.entity
          let extensionString :=
            if es ≠ [] ∧ ext.key ≠ [] then es ++ '_' :: ext.key
            else if ext.key ≠ [] then ext.key
            else es
          (resolveColumnsWithPrefix fuel target allSchemas extensionString).map
            (fun cols => acc ++ cols))
      (schema.columns.map (resolveColumnWithPrefix · pfx))

/-- Marks a path hit by some exclusion: `strings.TrimPrefix` changes it. -/
def columnDeletable (exclusions : List GoStr) (p : GoStr) : Bool :=
  exclusions.any fun x => goTrimPre p x != p

/-- `config.resolveDeletableColumns`: the set of distinct paths to drop
(a Go `map[string]struct{}`, modelled as a deduplicated list). -/
def resolveDeletableColumns (newColumns : List TableSchemaColumn)
    (schema : TableSchema) : List GoStr :=
  ((newColumns.filter fun c => columnDeletable schema.exclusions c.path).map
    (fun c => c.path)).dedup

/-- `config.resolveColumns`.  The Go code allocates the final slice with
length `len(newColumns) - len(deletableColumns)` and fills it with the kept
columns in order; when duplicate paths are deleted the allocation exceeds
the number of kept columns and the surplus entries remain zero-valued —
modelled by the `List.replicate` padding. -/
def resolveColumns (fuel : Nat) (schema : TableSchema)
    (allSchemas : List (GoStr × TableSchema)) : Option (List TableSchemaColumn) :=
  (resolveColumnsWithPrefix fuel schema allSchemas []).map fun newColumns =>
    if schema.exclusions ≠ [] then
      let deletable := resolveDeletableColumns newColumns schema
      let kept := newColumns.filter fun c => !(deletable.contains c.path)
      kept ++ List.replicate (newColumns.length - deletable.length - kept.length) zeroColumn
    else newColumns

/-- The schema of the C3 counterexample: one column, and the empty string as
an exclusion entry. -/
def c3Schema : TableSchema :=
  { entity := gs "s", extensions := [], exclusions := [[]],
    columns := [{ zeroColumn with path := gs "s_a" }] }

/-- **C3 (counterexample).**  With the empty string among the exclusions,
resolution succeeds and keeps the column `s_a`, yet the empty exclusion
string *is* a prefix of `s_a`: `strings.TrimPrefix(path, "")` returns the
path unchanged, so an empty exclusion never deletes anything. -/
theorem c3_exclusion_empty_counterexample :
    resolveColumns 1 c3Schema [] = some [{ zeroColumn with path := gs "s_a" }] ∧
      ([] : GoStr) ∈ c3Schema.exclusions ∧
      (([] : GoStr).isPrefixOf (gs "s_a")) = true := by
  refine ⟨by decide, by decide, by decide⟩

/-- **C3 (amended).**  Whenever resolution succeeds, no *non-empty* string
in the original schema's exclusions list is a prefix of any resolved
column's path.  (The unamended claim, quantifying over all exclusion
strings, fails for the empty exclusion string.) -/
theorem c3_exclusion_invariant_amended (fuel : Nat) (schema : TableSchema)
    (allSchemas : List (GoStr × TableSchema)) (cols : List TableSchemaColumn)
    (h : resolveColumns fuel schema allSchemas = some cols) :
    ∀ c ∈ cols, ∀ x ∈ schema.exclusions, x ≠ [] → x.isPrefixOf c.path = false := by
  intro c hc x hx hxne
  unfold resolveColumns at h
  cases hr : resolveColumnsWithPrefix fuel schema allSchemas [] with
  | none => rw [hr] at h; simp at h
  | some newColumns =>
    rw [hr] at h
    simp only [Option.map_some', Option.some.injEq] at h
    have hne : schema.exclusions ≠ [] := by
      intro he; rw [he] at hx; exact absurd hx (List.not_mem_nil x)
    rw [if_pos hne] at h
    subst h
    rcases List.mem_append.mp hc with hk | hp
    · -- c was kept by the exclusion filter
      obtain ⟨hmem, hkeep⟩ := List.mem_filter.mp hk
      by_contra hpre
      have hpre : x.isPrefixOf c.path = true := by
        revert hpre; cases x.isPrefixOf c.path <;> simp
      have hdel : columnDeletable schema.exclusions c.path = true := by
        refine List.any_eq_true.mpr ⟨x, hx, ?_⟩
        have hpfx : x <+: c.path := List.isPrefixOf_iff_prefix.mp hpre
        have hlen : x.length ≤ c.path.length := hpfx.length_le
        have hxlen : 0 < x.length := List.length_pos.mpr hxne
        have : goTrimPre c.path x = c.path.drop x.length := by
          simp [goTrimPre, hpre]
        refine bne_iff_ne.mpr ?_
        rw [this]
        intro he
        have := congrArg List.length he
        rw [List.length_drop] at this
        omega
      have hin : c.path ∈ resolveDeletableColumns newColumns schema := by
        unfold resolveDeletableColumns
        exact List.mem_dedup.mpr
          (List.mem_map.mpr ⟨c, List.mem_filter.mpr ⟨hmem, hdel⟩, rfl⟩)
      have := List.contains_iff_exists_mem_beq.mpr ⟨c.path, hin, beq_self_eq_true c.path⟩
      rw [this] at hkeep
      simp at hkeep
    · -- c is a zero-valued padding entry with the empty path
      have hz : c = zeroColumn := List.eq_of_mem_replicate hp
      subst hz
      cases hb : x.isPrefixOf (zeroColumn.path) with
      | false => rfl
      | true =>
        have : x <+: ([] : GoStr) := List.isPrefixOf_iff_prefix.mp hb
        exact absurd (List.prefix_nil.mp this) hxne

/-- The schema of the C3 witness: one real exclusion that removes `s_b`. -/
def c3WitnessSchema : TableSchema :=
  { entity := gs "s", extensions := [], exclusions := [gs "s_b"],
    columns := [{ zeroColumn with path := gs "s_a" },
                { zeroColumn with path := gs "s_b" }] }

/-- Witness for C3 (amended) on a concrete schema with an effective
exclusion: the surviving column `s_a` is not prefixed by the exclusion
`s_b`. -/
theorem c3_exclusion_invariant_amended_witness :
    (gs "s_b").isPrefixOf
      ({ zeroColumn with path := gs "s_a" } : TableSchemaColumn).path = false :=
  c3_exclusion_invariant_amended 1 c3WitnessSchema []
    [{ zeroColumn with path := gs "s_a" }] (by decide)
    { zeroColumn with path := gs "s_a" } (by decide)
    (gs "s_b") (by decide) (by decide)

/-! ## Request model (`tableaux`, `datasource`) -/

/-- Go `interface{}` values reaching the filter/order value positions: the
cast sites distinguish `string`, `int64`, `uint64` and `bool`; every other
dynamic type takes the respective default/panic branch (`other`). -/
inductive GoVal where
  | str : GoStr → GoVal
  | i64 : Int → GoVal
  | u64 : Nat → GoVal
  | boolean : Bool → GoVal
  | other : GoVal
deriving DecidableEq

/-- `tableaux.OrderAsc`. -/
def orderAsc : GoStr := gs "ASC"

/-- `tableaux.OrderDesc`. -/
def orderDesc : GoStr := gs "DESC"

/-- `tableaux.Order.Reverse` (the `Order` direction is a Go string type). -/
def orderReverse (o : GoStr) : GoStr := if o = orderAsc then orderDesc else orderAsc

/-- `datasource.Order`: a requested ordering. -/
structure OrderRequest where
  path : GoStr
  direction : GoStr
  sortKeys : List GoVal
deriving DecidableEq

/-- `datasource.Filter`: mode (a `tableaux.FilterMode` string) and value. -/
structure Filter where
  mode : GoStr
  value : GoVal
deriving DecidableEq

/-- `datasource.FilterGroup`. -/
structure FilterGroup where
  path : GoStr
  filters : List Filter
deriving DecidableEq

/-! ## Join planning (`datasource/sqlsource/handler.go`) -/

/-- Go `strings.Split(p, "_")`. -/
def splitUnderscore (p : GoStr) : List GoStr := p.splitOn '_'

/-- `handler.mergedParticipatingPaths`: the set of selected, ordered-by and
filtered paths.  The Go `map[string]interface{}` key set is modelled as a
deduplicated list; its unspecified iteration order is irrelevant because
every consumer sorts the derived data or ignores order. -/
def mergedParticipatingPaths (columns : List TableSchemaColumn)
    (orders : List OrderRequest) (filters : List FilterGroup) : List GoStr :=
  (columns.map (fun c => c.path) ++ orders.map (fun o => o.path) ++
    filters.map (fun f => f.path)).dedup

/-- `handler.calculatePathsForJoins`: every participating path with more
than two `_`-separated segments contributes each of its segment-prefixes of
length `2 … len-1`; the resulting set is deduplicated (a Go map) and sorted
with `sort.Strings`. -/
def calculatePathsForJoins (columns : List TableSchemaColumn)
    (orders : List OrderRequest) (filters : List FilterGroup) : List GoStr :=
  let participating := mergedParticipatingPaths columns orders filters
  if participating.length = 0 then []
  else
    List.insertionSort StrLe
      ((participating.flatMap fun p =>
        let parts := splitUnderscore p
        if parts.length > 2 then
          (List.range' 2 (parts.length - 2)).map
            (fun i => List.intercalate (gs "_") (parts.take i))
        else []).dedup)

/-- **C4.**  The join-path list contains exactly the segment-prefixes of
length `2 … len-1` of the participating paths with at least three segments
(so nothing for one- or two-segment paths), has no duplicates, and is
sorted in `sort.Strings` (lexicographic) order. -/
theorem c4_join_paths (columns : List TableSchemaColumn)
    (orders : List OrderRequest) (filters : List FilterGroup) :
    (∀ q, q ∈ calculatePathsForJoins columns orders filters ↔
      ∃ p ∈ mergedParticipatingPaths columns orders filters,
        (splitUnderscore p).length > 2 ∧
        ∃ i, 2 ≤ i ∧ i < (splitUnderscore p).length ∧
          q = List.intercalate (gs "_") ((splitUnderscore p).take i)) ∧
    (calculatePathsForJoins columns orders filters).Nodup ∧
    (calculatePathsForJoins columns orders filters).Sorted StrLe := by
  unfold calculatePathsForJoins
  by_cases hemp : (mergedParticipatingPaths columns orders filters).length = 0
  · rw [if_pos hemp]
    have he : mergedParticipatingPaths columns orders filters = [] :=
      List.length_eq_zero.mp hemp
    refine ⟨?_, List.nodup_nil, List.sorted_nil⟩
    intro q
    simp [he]
  · rw [if_neg hemp]
    refine ⟨?_, ?_, List.sorted_insertionSort StrLe _⟩
    · intro q
      rw [(List.perm_insertionSort StrLe _).mem_iff, List.mem_dedup, List.mem_flatMap]
      constructor
      · rintro ⟨p, hp, hq⟩
        by_cases hlen : (splitUnderscore p).length > 2
        · rw [if_pos hlen] at hq
          obtain ⟨i, hi, rfl⟩ := List.mem_map.mp hq
          obtain ⟨j, hj, rfl⟩ := List.mem_range'.mp hi
          exact ⟨p, hp, hlen, 2 + 1 * j, by omega, by omega, rfl⟩
        · rw [if_neg hlen] at hq
          exact absurd hq (List.not_mem_nil q)
      · rintro ⟨p, hp, hlen, i, hi2, hilt, rfl⟩
        refine ⟨p, hp, ?_⟩
        rw [if_pos hlen]
        exact List.mem_map.mpr ⟨i, List.mem_range'.mpr ⟨i - 2, by omega, by omega⟩, rfl⟩
    · exact ((List.perm_insertionSort StrLe _).nodup_iff).mpr (List.nodup_dedup _)

/-- The test-suite scenario: participating paths
`{organization_assignedPerson_supervisor_name, organization_name}` produce
exactly the two prefix joins, in order, and nothing for the two-segment
path. -/
theorem c4_join_paths_scenario :
    calculatePathsForJoins
      [{ zeroColumn with path := gs "organization_assignedPerson_supervisor_name" },
       { zeroColumn with path := gs "organization_name" }] [] [] =
      [gs "organization_assignedPerson", gs "organization_assignedPerson_supervisor"] := by
  decide

/-! ## Deferred-loading advice (`handler.go`) -/

/-- `config.ResolvedTableSchema`: the original schema plus the flat resolved
column list.  The derived `columnsMap` is modelled by `schemaColumn`. -/
structure ResolvedTableSchema where
  originalSchema : TableSchema
  columns : List TableSchemaColumn
deriving DecidableEq

/-- `ResolvedTableSchema.Column`: lookup in `columnsMap`, which Go builds by
inserting every resolved column keyed by its path (later inserts
overwrite); missing keys give `ErrUnknownColumn` (`none`). -/
def schemaColumn (schema : ResolvedTableSchema) (key : GoStr) :
    Option TableSchemaColumn :=
  goMapFind (schema.columns.map fun c => (c.path, c)) key

/-- `handler.adviseDeferredLoading`.  The `columns` parameter is accepted
and ignored, as in the source (its use is commented out there).  Note the
early `return false` when an order path with at most two segments is not
present in the schema. -/
def adviseDeferredLoading (columns : List TableSchemaColumn) :
    List OrderRequest → ResolvedTableSchema → Bool
  | [], _ => false
  | o :: rest, schema =>
    if (splitUnderscore o.path).length > 2 then true
    else
      match schemaColumn schema o.path with
      | none => false
      | some col =>
        if col.pathResolver = gs "SizePathResolver" then true
        else adviseDeferredLoading columns rest schema

/-- A resolved schema with no columns at all. -/
def c6Schema : ResolvedTableSchema := ⟨⟨gs "a", [], [], []⟩, []⟩

/-- **C6 (counterexample).**  An order entry with at most two segments that
is unknown to the schema makes `adviseDeferredLoading` return `false`
immediately, even though a later order path (`a_b_c`) has more than two
segments — refuting "the presence of any single such order path suffices,
regardless of the other order entries". -/
theorem c6_advise_counterexample :
    adviseDeferredLoading []
      [⟨gs "x", orderAsc, []⟩, ⟨gs "a_b_c", orderAsc, []⟩] c6Schema = false ∧
    (splitUnderscore (gs "a_b_c")).length > 2 := by
  refine ⟨by decide, by decide⟩

/-- **C6 (amended).**  Provided every order path with at most two segments
resolves in the schema, `adviseDeferredLoading` returns `true` iff some
order path has more than two `_`-separated segments or resolves to a column
whose path resolver is `SizePathResolver`.  (Without that proviso an
unresolvable short order path short-circuits the answer to `false`
regardless of later entries.) -/
theorem c6_advise_amended (columns : List TableSchemaColumn)
    (orders : List OrderRequest) (schema : ResolvedTableSchema)
    (h : ∀ o ∈ orders, (splitUnderscore o.path).length ≤ 2 →
      (schemaColumn schema o.path).isSome = true) :
    adviseDeferredLoading columns orders schema = true ↔
      ∃ o ∈ orders, (splitUnderscore o.path).length > 2 ∨
        ∃ c, schemaColumn schema o.path = some c ∧
          c.pathResolver = gs "SizePathResolver" := by
  induction orders with
  | nil => simp [adviseDeferredLoading]
  | cons o rest ih =>
    by_cases hlen : (splitUnderscore o.path).length > 2
    · simp only [adviseDeferredLoading, if_pos hlen]
      constructor
      · intro _
        exact ⟨o, List.mem_cons_self o rest, Or.inl hlen⟩
      · intro _
        trivial
    · have hsome : (schemaColumn schema o.path).isSome = true :=
        h o (List.mem_cons_self o rest) (by omega)
      obtain ⟨col, hcol⟩ := Option.isSome_iff_exists.mp hsome
      simp only [adviseDeferredLoading, if_neg hlen, hcol]
      by_cases hsz : col.pathResolver = gs "SizePathResolver"
      · rw [if_pos hsz]
        constructor
        · intro _
          exact ⟨o, List.mem_cons_self o rest, Or.inr ⟨col, hcol, hsz⟩⟩
        · intro _
          trivial
      · rw [if_neg hsz]
        have hrest := ih (fun o' ho' => h o' (List.mem_cons_of_mem o ho'))
        rw [hrest]
        constructor
        · rintro ⟨o', ho', hor⟩
          exact ⟨o', List.mem_cons_of_mem o ho', hor⟩
        · rintro ⟨o', ho', hor⟩
          rcases List.mem_cons.mp ho' with rfl | ho'
          · rcases hor with hl | ⟨c, hc, hcs⟩
            · exact absurd hl hlen
            · rw [hcol] at hc
              cases hc
              exact absurd hcs hsz
          · exact ⟨o', ho', hor⟩

/-- A schema containing a size column for the C6 witness. -/
def c6WitnessSchema : ResolvedTableSchema :=
  ⟨⟨gs "a", [], [], []⟩,
   [{ zeroColumn with path := gs "a_sub", pathResolver := gs "SizePathResolver" }]⟩

/-- Witness for C6 (amended): an order on the size column `a_sub` advises
deferred loading. -/
theorem c6_advise_amended_witness :
    adviseDeferredLoading [] [⟨gs "a_sub", orderAsc, []⟩] c6WitnessSchema = true ↔
      ∃ o ∈ [(⟨gs "a_sub", orderAsc, []⟩ : OrderRequest)],
        (splitUnderscore o.path).length > 2 ∨
        ∃ c, schemaColumn c6WitnessSchema o.path = some c ∧
          c.pathResolver = gs "SizePathResolver" :=
  c6_advise_amended [] [⟨gs "a_sub", orderAsc, []⟩] c6WitnessSchema (by decide)

/-! ## Filter strategies (`datasource/sqlsource/filter`) -/

/-- Abort and error outcomes: `panicked` models a Go `panic`, `errored` a
returned non-nil `error`. -/
inductive GoFail where
  | panicked
  | errored
deriving DecidableEq

instance {ε α : Type} [DecidableEq ε] [DecidableEq α] : DecidableEq (Except ε α) :=
  fun x y =>
    match x, y with
    | .ok a, .ok b => if h : a = b then isTrue (by rw [h]) else isFalse (by simp [h])
    | .error a, .error b => if h : a = b then isTrue (by rw [h]) else isFalse (by simp [h])
    | .ok _, .error _ => isFalse (by simp)
    | .error _, .ok _ => isFalse (by simp)

/-- The `filter.Operator` constants (`part_005`). -/
def opLike : GoStr := gs "LIKE"

def opNotLike : GoStr := gs "NOT LIKE"

def opEqual : GoStr := gs "="

def opNotEqual : GoStr := gs "!="

def opGreater : GoStr := gs "GREATER"

def opGreaterEquals : GoStr := gs "GREATER_EQUALS"

def opLesser : GoStr := gs "LESSER"

def opLesserEquals : GoStr := gs "LESSER_EQUALS"

/-- The `tableaux.FilterMode` constants (`part_009`). -/
def modeEquals : GoStr := gs "EQUALS"

def modeGreater : GoStr := gs "GREATER"

def modeGreaterEquals : GoStr := gs "GREATER_EQUALS"

def modeLesser : GoStr := gs "LESSER"

def modeLesserEquals : GoStr := gs "LESSER_EQUALS"

def modeNotEquals : GoStr := gs "NOT_EQUALS"

/-- `filter.Common.Operator`: the default mode → operator mapping; unknown
modes produce an error. -/
def commonOperator (_value : GoVal) (filterMode : GoStr) : Except GoFail GoStr :=
  if filterMode = modeEquals then .ok opEqual
  else if filterMode = modeGreater then .ok opGreater
  else if filterMode = modeGreaterEquals then .ok opGreaterEquals
  else if filterMode = modeLesser then .ok opLesser
  else if filterMode = modeLesserEquals then .ok opLesserEquals
  else if filterMode = modeNotEquals then .ok opNotEqual
  else .error .errored

/-- Go `strings.Contains(s, ".*")`. -/
def containsDotStar : GoStr → Bool
  | [] => false
  | '.' :: '*' :: _ => true
  | _ :: rest => containsDotStar rest

/-- Go `strings.Replace(s, ".*", "%", -1)` (left-to-right, non-overlapping). -/
def replaceDotStar : GoStr → GoStr
  | [] => []
  | '.' :: '*' :: rest => '%' :: replaceDotStar rest
  | c :: rest => c :: replaceDotStar rest

/-- `filter.RegexString.Operator`: overrides `EQUALS`/`NOT_EQUALS` to
`LIKE`/`NOT LIKE` when the string value contains `.*`, delegates to
`Common.Operator` otherwise, and errors on non-string values. -/
def regexOperator (value : GoVal) (filterMode : GoStr) : Except GoFail GoStr :=
  match value with
  | .str s =>
    if containsDotStar s then
      if filterMode = modeEquals then .ok opLike
      else if filterMode = modeNotEquals then .ok opNotLike
      else commonOperator value filterMode
    else commonOperator value filterMode
  | _ => .error .errored

/-- The four filter strategies registered in `NewConnector`. -/
inductive FilterStrategy where
  | boolean
  | plainString
  | regexString
  | numeric
deriving DecidableEq

/-- `Operator` dispatch: only `RegexString` overrides `Common.Operator`. -/
def strategyOperator : FilterStrategy → GoVal → GoStr → Except GoFail GoStr
  | .regexString, v, m => regexOperator v m
  | _, v, m => commonOperator v m

/-- `strconv.FormatUint(n, 10)`. -/
def natDec (n : Nat) : GoStr := (Nat.repr n).toList

/-- `strconv.FormatInt(i, 10)`. -/
def intDec (i : Int) : GoStr := (Int.repr i).toList

/-- `strconv.ParseInt(s, 10, 64)` as used by `Numeric.ParseValue`, which
discards the error: a syntax error yields 0 and an out-of-range value is
clamped to the int64 range (Go returns the clamped value with `ErrRange`). -/
def goParseInt64 (s : GoStr) : Int :=
  let core : Bool × GoStr :=
    match s with
    | '+' :: t => (false, t)
    | '-' :: t => (true, t)
    | t => (false, t)
  if core.2 = [] ∨ ¬ core.2.all Char.isDigit then 0
  else
    let n : Nat := core.2.foldl (fun acc c => acc * 10 + (c.toNat - 48)) 0
    let v : Int := if core.1 then -(n : Int) else (n : Int)
    if v < -(2 ^ 63) then -(2 ^ 63) else if v > 2 ^ 63 - 1 then 2 ^ 63 - 1 else v

/-- Wrap a value in single quotes (`fmt.Sprintf("'%s'", v)`). -/
def quoteSingle (s : GoStr) : GoStr := '\'' :: s ++ ['\'']

/-- `ParseValue` of the four strategies; `none` models the
`panic("todo - cannot parse value!")` sites.  `Boolean` lower-cases its
string argument with Go's Unicode `strings.ToLower` before comparing with
`"true"`; on the comparison with an ASCII literal this agrees with
character-wise `Char.toLower`, since no non-ASCII character lower-cases to
an ASCII letter of `"true"`. -/
def parseValue : FilterStrategy → GoVal → Option GoStr
  | .boolean, .boolean b => some (if b then gs "true" else gs "false")
  | .boolean, .str s =>
    some (if s = gs "1" ∨ s.map Char.toLower = gs "true" then gs "true" else gs "false")
  | .boolean, _ => none
  | .numeric, .u64 n => some (natDec n)
  | .numeric, .i64 i => some (intDec i)
  | .numeric, .str s => some (intDec (goParseInt64 s))
  | .numeric, _ => none
  | .plainString, .str s => some (quoteSingle s)
  | .plainString, _ => none
  | .regexString, .str s => some (quoteSingle (replaceDotStar s))
  | .regexString, _ => none

/-- **C1.**  The default operator mapping sends `EQUALS`/`NOT_EQUALS` to the
SQL texts `=`/`!=` and `RegexString` overrides exactly `EQUALS`/`NOT_EQUALS`
to `LIKE`/`NOT LIKE` for values containing `.*` — but the four order
comparisons map to the literal texts `GREATER`, `GREATER_EQUALS`, `LESSER`,
`LESSER_EQUALS` (the `FilterMode` names), not to the SQL operators `>`,
`>=`, `<`, `<=`, so the compiled predicate `path GREATER literal` is not
well-formed SQL. -/
theorem c1_operator_text :
    commonOperator (GoVal.i64 5) modeEquals = .ok opEqual ∧
    commonOperator (GoVal.i64 5) modeNotEquals = .ok opNotEqual ∧
    commonOperator (GoVal.i64 5) modeGreater = .ok opGreater ∧
    commonOperator (GoVal.i64 5) modeGreaterEquals = .ok opGreaterEquals ∧
    commonOperator (GoVal.i64 5) modeLesser = .ok opLesser ∧
    commonOperator (GoVal.i64 5) modeLesserEquals = .ok opLesserEquals ∧
    opEqual = gs "=" ∧ opNotEqual = gs "!=" ∧
    opGreater ≠ gs ">" ∧ opGreaterEquals ≠ gs ">=" ∧
    opLesser ≠ gs "<" ∧ opLesserEquals ≠ gs "<=" ∧
    opGreater = gs "GREATER" ∧ opGreaterEquals = gs "GREATER_EQUALS" ∧
    opLesser = gs "LESSER" ∧ opLesserEquals = gs "LESSER_EQUALS" ∧
    regexOperator (GoVal.str (gs "a.*")) modeEquals = .ok opLike ∧
    regexOperator (GoVal.str (gs "a.*")) modeNotEquals = .ok opNotLike ∧
    regexOperator (GoVal.str (gs "a.*")) modeGreater = .ok opGreater ∧
    regexOperator (GoVal.str (gs "ab")) modeEquals = .ok opEqual := by
  decide

/-- **C9 (counterexample).**  `Boolean.ParseValue` is not total: a value
that is neither `bool` nor `string` (here an `int64`) hits
`panic("todo - cannot parse value!")` instead of returning `"false"`. -/
theorem c9_boolean_parse_counterexample :
    parseValue FilterStrategy.boolean (GoVal.i64 7) = none ∧
      none ≠ some (gs "false") := by
  refine ⟨rfl, by decide⟩

/-- **C9 (amended).**  `Boolean.ParseValue` returns `"true"` for boolean
`true`, for the string `"1"` and for strings equal to `"true"` case-
insensitively; it returns `"false"` for boolean `false` and for every other
string; and it aborts (panics) on every value that is neither `bool` nor
`string`. -/
theorem c9_boolean_parse_amended (v : GoVal) :
    parseValue FilterStrategy.boolean v =
      match v with
      | GoVal.boolean true => some (gs "true")
      | GoVal.boolean false => some (gs "false")
      | GoVal.str s =>
        if s = gs "1" ∨ s.map Char.toLower = gs "true" then some (gs "true")
        else some (gs "false")
      | _ => none := by
  rcases v with s | i | n | b | _
  · simp only [parseValue]
    by_cases h : s = gs "1" ∨ s.map Char.toLower = gs "true" <;> simp [h]
  · rfl
  · rfl
  · cases b <;> rfl
  · rfl

/-! ## Filter compilation (`part_002`: `CommonQueryBuilder`, `FilterColumn`) -/

/-- A Go loop that applies `f` to each element and returns the first
error (`for ... { y, err := f(x); if err != nil { return err } }`). -/
def exceptMapM {a b : Type} (f : a → Except GoFail b) : List a → Except GoFail (List b)
  | [] => .ok []
  | x :: xs =>
    match f x with
    | .error e => .error e
    | .ok y =>
      match exceptMapM f xs with
      | .error e => .error e
      | .ok ys => .ok (y :: ys)

/-- A Go loop that applies `f` to each element, aborting (panic) when `f`
aborts — used for `parseValues`. -/
def optionMapM {a b : Type} (f : a → Option b) : List a → Option (List b)
  | [] => some []
  | x :: xs =>
    match f x with
    | none => none
    | some y =>
      match optionMapM f xs with
      | none => none
      | some ys => some (y :: ys)

/-- `CommonQueryBuilder.FilterStringFromValue`: `fmt.Sprintf("%s %s %s")`. -/
def filterStringFromValue (path op value : GoStr) : GoStr :=
  path ++ ' ' :: op ++ ' ' :: value

/-- `CommonQueryBuilder.FilterStringFromValues`: parse all values (a
panicking parse aborts), emit a single comparison for one value, collapse
`=`/`!=` buckets into `IN`/`NOT IN`, OR-chain the order comparisons and
`LIKE`, and error on any other operator (including `NOT LIKE`, absent from
the switch). -/
def filterStringFromValues (path : GoStr) (strat : FilterStrategy) (op : GoStr)
    (values : List GoVal) : Except GoFail GoStr :=
  match optionMapM (parseValue strat) values with
  | none => .error .panicked
  | some parsed =>
    if values.length = 1 then .ok (filterStringFromValue path op (parsed.headD []))
    else if op = opEqual then
      .ok (path ++ gs " IN (" ++ List.intercalate (gs ",") parsed ++ gs ")")
    else if op = opNotEqual then
      .ok (path ++ gs " NOT IN (" ++ List.intercalate (gs ",") parsed ++ gs ")")
    else if op = opGreater ∨ op = opGreaterEquals ∨ op = opLesser ∨
        op = opLesserEquals ∨ op = opLike then
      .ok (List.intercalate (gs " OR ") (parsed.map (filterStringFromValue path op)))
    else .error .errored

/-- Insertion into the per-operator bucket map of `FilterColumn`, keeping
value order within a bucket (Go appends to the slice under the map key). -/
def bucketInsert (buckets : List (GoStr × List GoVal)) (op : GoStr) (v : GoVal) :
    List (GoStr × List GoVal) :=
  match buckets with
  | [] => [(op, [v])]
  | (o, vs) :: rest =>
    if o = op then (o, vs ++ [v]) :: rest else (o, vs) :: bucketInsert rest op v

/-- The operator-bucket map of `FilterColumn` for one group, as an
association list in first-occurrence order.  (Go iterates this map in
unspecified order; the theorems below only rely on single-bucket groups,
where the order is immaterial.)  An `Operator` error is returned as in the
source. -/
def bucketFilters (strat : FilterStrategy) :
    List Filter → List (GoStr × List GoVal) → Except GoFail (List (GoStr × List GoVal))
  | [], acc => .ok acc
  | f :: rest, acc =>
    match strategyOperator strat f.value f.mode with
    | .error e => .error e
    | .ok op => bucketFilters strat rest (bucketInsert acc op f.value)

/-- `sqlsource.FilterColumn` for the `CommonQueryBuilder` dialect: per
group, bucket the filters by operator, compile each bucket, OR-join the
buckets, and AND-join the groups. -/
def FilterColumn (path : GoStr) (strat : FilterStrategy)
    (filterGroups : List FilterGroup) : Except GoFail GoStr :=
  match exceptMapM (fun g =>
    match bucketFilters strat g.filters [] with
    | .error e => .error e
    | .ok buckets =>
      match exceptMapM (fun b => filterStringFromValues path strat b.1 b.2) buckets with
      | .error e => .error e
      | .ok orFilters => .ok (List.intercalate (gs " OR ") orFilters)) filterGroups with
  | .error e => .error e
  | .ok andFilters => .ok (List.intercalate (gs " AND ") andFilters)

/-- The RegexString group of the C8 counterexample: two EQUALS filters whose
string values contain `.*`. -/
def c8RegexGroup : FilterGroup :=
  ⟨gs "company_name",
   [⟨modeEquals, .str (gs ".*a")⟩, ⟨modeEquals, .str (gs ".*b")⟩]⟩

/-- **C8 (counterexample).**  Under the RegexString strategy a group of
EQUALS filters whose values contain `.*` compiles to an OR-chain of `LIKE`
comparisons, not to `path IN (...)`, although both values parse. -/
theorem c8_in_collapse_counterexample :
    FilterColumn (gs "p") FilterStrategy.regexString [c8RegexGroup] =
      .ok (gs "p LIKE '%a' OR p LIKE '%b'") ∧
    (parseValue FilterStrategy.regexString (GoVal.str (gs ".*a"))).isSome = true ∧
    (parseValue FilterStrategy.regexString (GoVal.str (gs ".*b"))).isSome = true ∧
    gs "p LIKE '%a' OR p LIKE '%b'" ≠ gs "p IN ('%a','%b')" := by
  refine ⟨by decide, by decide, by decide, by decide⟩

theorem intercalate_single (sep x : GoStr) : List.intercalate sep [x] = x := by
  simp [List.intercalate]

theorem bucketFilters_all_equal (strat : FilterStrategy) :
    ∀ (fs : List Filter) (vs : List GoVal),
      (∀ f ∈ fs, strategyOperator strat f.value f.mode = .ok opEqual) →
      bucketFilters strat fs [(opEqual, vs)] =
        .ok [(opEqual, vs ++ fs.map (fun f => f.value))]
  | [], vs, _ => by simp [bucketFilters]
  | f :: rest, vs, h => by
    have hop := h f (List.mem_cons_self f rest)
    simp only [bucketFilters, hop, bucketInsert, if_true, eq_self_iff_true]
    rw [bucketFilters_all_equal strat rest (vs ++ [f.value])
      (fun f2 hf2 => h f2 (List.mem_cons_of_mem f hf2))]
    simp

/-- **C8 (amended).**  For a filter group whose filters all have mode
`EQUALS`, *whose strategy maps every (value, EQUALS) pair to the `=`
operator* (true for every strategy except RegexString on values containing
`.*`), and whose `n ≥ 2` values all parse, the compiled predicate is
`path IN (v1,…,vn)` with the parsed values in filter order. -/
theorem c8_in_collapse_amended (path : GoStr) (strat : FilterStrategy)
    (g : FilterGroup) (parsed : List GoStr)
    (h1 : ∀ f ∈ g.filters, f.mode = modeEquals)
    (h2 : ∀ f ∈ g.filters, strategyOperator strat f.value f.mode = .ok opEqual)
    (h3 : optionMapM (parseValue strat) (g.filters.map (fun f => f.value)) = some parsed)
    (h4 : 2 ≤ g.filters.length) :
    FilterColumn path strat [g] =
      .ok (path ++ gs " IN (" ++ List.intercalate (gs ",") parsed ++ gs ")") := by
  have hbuckets : bucketFilters strat g.filters [] =
      .ok [(opEqual, g.filters.map (fun f => f.value))] := by
    cases hg : g.filters with
    | nil => rw [hg] at h4; simp at h4
    | cons f rest =>
      have hop := h2 f (by rw [hg]; exact List.mem_cons_self f rest)
      simp only [bucketFilters, hop, bucketInsert]
      rw [bucketFilters_all_equal strat rest [f.value]
        (fun f2 hf2 => h2 f2 (by rw [hg]; exact List.mem_cons_of_mem f hf2))]
      simp
  have hvalues : filterStringFromValues path strat opEqual
      (g.filters.map (fun f => f.value)) =
      .ok (path ++ gs " IN (" ++ List.intercalate (gs ",") parsed ++ gs ")") := by
    simp only [filterStringFromValues, h3, List.length_map]
    rw [if_neg (by omega : ¬ g.filters.length = 1)]
    simp
  simp only [FilterColumn, exceptMapM, hbuckets, hvalues]
  rw [intercalate_single, intercalate_single]

/-- The Numeric group of the C8 witness: EQUALS on 1, 2, 3. -/
def c8NumericGroup : FilterGroup :=
  ⟨gs "company_companyKey",
   [⟨modeEquals, .i64 1⟩, ⟨modeEquals, .i64 2⟩, ⟨modeEquals, .i64 3⟩]⟩

/-- Witness for C8 (amended), the specification scenario:
`company.company_key IN (1,2,3)`. -/
theorem c8_in_collapse_amended_witness :
    FilterColumn (gs "company.company_key") FilterStrategy.numeric [c8NumericGroup] =
      .ok (gs "company.company_key" ++ gs " IN (" ++
        List.intercalate (gs ",") [gs "1", gs "2", gs "3"] ++ gs ")") ∧
    gs "company.company_key" ++ gs " IN (" ++
        List.intercalate (gs ",") [gs "1", gs "2", gs "3"] ++ gs ")" =
      gs "company.company_key IN (1,2,3)" :=
  ⟨c8_in_collapse_amended (gs "company.company_key") FilterStrategy.numeric
      c8NumericGroup [gs "1", gs "2", gs "3"]
      (by decide) (by decide) (by decide) (by decide),
   by decide⟩

/-! ## Order compilation (`part_002`: `OrderColumn`; `order` package) -/

/-- `CommonQueryBuilder.OrderColumn`: `path + " " + direction`. -/
def cqbOrderColumn (path direction : GoStr) : GoStr := path ++ ' ' :: direction

/-- `fmt.Sprintf("%v", value)` for the modelled sort-key value types.
(`other` stands for dynamic types outside the model; no modelled claim
renders one.) -/
def goFmtValue : GoVal → GoStr
  | .str s => s
  | .i64 i => intDec i
  | .u64 n => natDec n
  | .boolean b => if b then gs "true" else gs "false"
  | .other => gs "?"

/-- One `WHEN … THEN i` entry of `OrderColumnByArray` (string values are
single-quoted, others use default `%v` formatting). -/
def caseEntry (iv : Nat × GoVal) : GoStr :=
  match iv.2 with
  | .str s => gs "WHEN '" ++ s ++ gs "' THEN " ++ natDec iv.1
  | v => gs "WHEN " ++ goFmtValue v ++ gs " THEN " ++ natDec iv.1

/-- `CommonQueryBuilder.OrderColumnByArray`: the CASE form. -/
def cqbOrderColumnByArray (path : GoStr) (values : List GoVal)
    (direction : GoStr) : GoStr :=
  gs "CASE " ++ path ++ gs " " ++
    List.intercalate (gs " ") (values.enum.map caseEntry) ++
    gs " ELSE -1 END " ++ direction

/-- `order.ResolvedOrder`: `SortKeys` distinguishes the nil slice (`none`)
from a populated one, as the caller tests `SortKeys != nil`. -/
structure ResolvedOrder where
  path : GoStr
  dir : GoStr
  sortKeys : Option (List GoVal)
deriving DecidableEq

/-- `order.Direct.OrderColumn`: path and direction unchanged, no sort
keys. -/
def directOrderColumn (path : GoStr) (_column : TableSchemaColumn)
    (dir : GoStr) (_locale : GoStr) : Except GoFail ResolvedOrder :=
  .ok ⟨path, dir, none⟩

/-- The sort-key sanitisation switch of `OrderColumn`: strings pass
through, `uint64`/`int64` are rendered in decimal, anything else bails
out. -/
def sanitizeKey : GoVal → Option GoStr
  | .str s => some s
  | .u64 n => some (natDec n)
  | .i64 i => some (intDec i)
  | _ => none

/-- `sqlsource.OrderColumn` over the `CommonQueryBuilder` dialect, with the
column's sorter passed as a function.  `none` models a panic.  With
non-empty sort keys that all sanitise, the Go code compares the keys with
their `sort.Sort`ed copy (ascending `sort.StringSlice` order — modelled
exactly by insertion sort, since a multiset of strings has a unique sorted
sequence); if they differ it evaluates
`sort.Reverse(sortedEntries).(sort.StringSlice)`, and `sort.Reverse`
returns a `*sort.reverse` wrapper, so this type assertion always panics —
neither the reversed shortcut nor the CASE fallback of this branch is
reachable.  A sorter error hits `panic(err)`. -/
def OrderColumn (path : GoStr) (column : TableSchemaColumn)
    (sorter : GoStr → TableSchemaColumn → GoStr → GoStr → Except GoFail ResolvedOrder)
    (ord : OrderRequest) (locale : GoStr) : Option GoStr :=
  let fallback : Option GoStr :=
    match sorter path column ord.direction locale with
    | .error _ => none
    | .ok r =>
      match r.sortKeys with
      | some keys => some (cqbOrderColumnByArray r.path keys r.dir)
      | none => some (cqbOrderColumn r.path r.dir)
  if ord.sortKeys.length > 0 then
    match optionMapM sanitizeKey ord.sortKeys with
    | some sanitized =>
      if sanitized = List.insertionSort StrLe sanitized then
        some (cqbOrderColumn path ord.direction)
      else none
    | none => fallback
  else fallback

/-- **C5.**  Sort keys `["b", "a"]` coerce to strings, are not in ascending
order, and equal the reverse of their sorted order — the claim says the
simple reversed ordering `p DESC` is emitted, but `OrderColumn` aborts: the
interface conversion `sort.Reverse(sortedEntries).(sort.StringSlice)`
panics (`sort.Reverse` yields a `*sort.reverse`, never a
`sort.StringSlice`), so the reversed-order shortcut is unreachable. -/
theorem c5_sortkey_reverse_panics :
    [gs "b", gs "a"] ≠ List.insertionSort StrLe [gs "b", gs "a"] ∧
    [gs "b", gs "a"] = (List.insertionSort StrLe [gs "b", gs "a"]).reverse ∧
    OrderColumn (gs "p") zeroColumn directOrderColumn
      ⟨gs "p", orderAsc, [.str (gs "b"), .str (gs "a")]⟩ (gs "de") = none ∧
    OrderColumn (gs "p") zeroColumn directOrderColumn
      ⟨gs "p", orderAsc, [.str (gs "a"), .str (gs "b")]⟩ (gs "de") =
      some (cqbOrderColumn (gs "p") orderAsc) := by
  refine ⟨by decide, by decide, by decide, by decide⟩

/-! ## Enums and translations (`config/enumeration.go`, `part_008`) -/

/-- `config.Enum`: enum key → translation key (a Go map). -/
abbrev Enum := List (GoStr × GoStr)

/-- `config.LanguageCatalog`: translation key → translated text. -/
abbrev LanguageCatalog := List (GoStr × GoStr)

/-- `config.Translator`: locale → catalog. -/
abbrev Translator := List (GoStr × LanguageCatalog)

/-- Go map read with the zero-value default `""` for missing keys. -/
def goMapGet (m : List (GoStr × GoStr)) (k : GoStr) : GoStr := (goMapFind m k).getD []

/-- The translation error sentinels. -/
inductive TransErr where
  | unknownLanguage
  | unknownTranslation
deriving DecidableEq

/-- The enum error sentinels. -/
inductive EnumErr where
  | unknownEnum
  | unknownEnumKey
deriving DecidableEq

/-- `LanguageCatalog.Translate`: Go returns the pair
`("??key??", ErrUnknownTranslation)` whenever the map read yields `""` —
whether the key is absent or present with an empty value. -/
def catalogTranslate (cat : LanguageCatalog) (key : GoStr) : GoStr × Option TransErr :=
  if goMapGet cat key = [] then (gs "??" ++ key ++ gs "??", some .unknownTranslation)
  else (goMapGet cat key, none)

/-- `Translator.Translate`: unknown locale short-circuits with
`("", ErrUnknownLanguage)`. -/
def translatorTranslate (tr : Translator) (language key : GoStr) :
    GoStr × Option TransErr :=
  match goMapFind tr language with
  | none => ([], some .unknownLanguage)
  | some cat => catalogTranslate cat key

/-- `config.Enum.TranslationKey`: errors whenever the map read yields
`""`. -/
def enumTranslationKey (e : Enum) (key : GoStr) : GoStr × Option EnumErr :=
  if goMapGet e key = [] then ([], some .unknownEnumKey)
  else (goMapGet e key, none)

theorem goMapFind_eq_none {β : Type} (m : List (GoStr × β)) (k : GoStr)
    (h : ∀ b ∈ m, b.1 ≠ k) : goMapFind m k = none := by
  induction m with
  | nil => rfl
  | cons e rest ih =>
    have he := h e (List.mem_cons_self e rest)
    have hrest := ih (fun b hb => h b (List.mem_cons_of_mem e hb))
    simp only [goMapFind] at hrest ⊢
    simp only [List.foldl_cons, if_neg he]
    exact hrest

/-- **C10.**  A translation key that is present but mapped to the empty
string translates to `("??key??", ErrUnknownTranslation)`, exactly as if
the key were deleted from the catalog; likewise `Enum.TranslationKey`
returns `ErrUnknownEnumKey` for an enum key mapped to the empty string. -/
theorem c10_empty_translation (cat : LanguageCatalog) (e : Enum) (key ekey : GoStr)
    (h1 : goMapFind cat key = some [])
    (h2 : goMapFind e ekey = some []) :
    catalogTranslate cat key =
      (gs "??" ++ key ++ gs "??", some TransErr.unknownTranslation) ∧
    catalogTranslate cat key =
      catalogTranslate (cat.filter fun b => !(b.1 == key)) key ∧
    enumTranslationKey e ekey = ([], some EnumErr.unknownEnumKey) := by
  have hget1 : goMapGet cat key = [] := by rw [goMapGet, h1]; rfl
  have hget2 : goMapGet e ekey = [] := by rw [goMapGet, h2]; rfl
  have hfilter : goMapFind (cat.filter fun b => !(b.1 == key)) key = none := by
    refine goMapFind_eq_none _ _ (fun b hb => ?_)
    have := (List.mem_filter.mp hb).2
    simpa using this
  refine ⟨?_, ?_, ?_⟩
  · rw [catalogTranslate, if_pos hget1]
  · rw [catalogTranslate, if_pos hget1, catalogTranslate,
      if_pos (by rw [goMapGet, hfilter]; rfl)]
  · rw [enumTranslationKey, if_pos hget2]

/-- Witness for C10 at one-entry maps with empty values. -/
theorem c10_empty_translation_witness :
    catalogTranslate [(gs "k", [])] (gs "k") =
      (gs "??" ++ gs "k" ++ gs "??", some TransErr.unknownTranslation) ∧
    catalogTranslate [(gs "k", [])] (gs "k") =
      catalogTranslate (([(gs "k", [])] : LanguageCatalog).filter
        fun b => !(b.1 == gs "k")) (gs "k") ∧
    enumTranslationKey [(gs "E", [])] (gs "E") = ([], some EnumErr.unknownEnumKey) :=
  c10_empty_translation [(gs "k", [])] [(gs "E", [])] (gs "k") (gs "E")
    (by decide) (by decide)

/-! ## Enum-translation ordering (`order/enum.go`) -/

/-- Strict `sort.Strings` order. -/
def StrLt (a b : GoStr) : Prop := StrLe a b ∧ a ≠ b

instance : DecidableRel StrLt := fun a b =>
  inferInstanceAs (Decidable (StrLe a b ∧ a ≠ b))

/-- The translated text an entry sorts by:
`Translate(locale, entry.TranslationKey + suffix)`, whose text component is
used even when the translation is missing (the error is only logged). -/
def transOf (tr : Translator) (locale suffix : GoStr) (entry : GoStr × GoStr) : GoStr :=
  (translatorTranslate tr locale (entry.2 ++ suffix)).1

/-- Entry order by enum key (`strings.Compare(… EnumKey …) < 0`). -/
def keyLe (a b : GoStr × GoStr) : Prop := StrLe a.1 b.1

/-- Entry order by ascending translated text. -/
def transLeBy (t : (GoStr × GoStr) → GoStr) (a b : GoStr × GoStr) : Prop :=
  StrLe (t a) (t b)

/-- Entry order by descending translated text (the `reverse` comparator). -/
def transGeBy (t : (GoStr × GoStr) → GoStr) (a b : GoStr × GoStr) : Prop :=
  StrLe (t b) (t a)

instance : DecidableRel keyLe := fun a b => inferInstanceAs (Decidable (StrLe a.1 b.1))

instance (t : (GoStr × GoStr) → GoStr) : DecidableRel (transLeBy t) := fun a b =>
  inferInstanceAs (Decidable (StrLe (t a) (t b)))

instance (t : (GoStr × GoStr) → GoStr) : DecidableRel (transGeBy t) := fun a b =>
  inferInstanceAs (Decidable (StrLe (t b) (t a)))

instance : IsTotal (GoStr × GoStr) keyLe := ⟨fun a b => lexLe_total a.1 b.1⟩

instance : IsTrans (GoStr × GoStr) keyLe := ⟨fun _ _ _ => lexLe_trans⟩

instance (t : (GoStr × GoStr) → GoStr) : IsTotal (GoStr × GoStr) (transLeBy t) :=
  ⟨fun a b => lexLe_total (t a) (t b)⟩

instance (t : (GoStr × GoStr) → GoStr) : IsTrans (GoStr × GoStr) (transLeBy t) :=
  ⟨fun _ _ _ => lexLe_trans⟩

instance (t : (GoStr × GoStr) → GoStr) : IsTotal (GoStr × GoStr) (transGeBy t) :=
  ⟨fun a b => lexLe_total (t b) (t a)⟩

instance (t : (GoStr × GoStr) → GoStr) : IsTrans (GoStr × GoStr) (transGeBy t) :=
  ⟨fun _ _ _ h1 h2 => lexLe_trans h2 h1⟩

/-- `EnumSorter.entriesSortedByKey`.  `Enum.Entries()` lists the map's
distinct entries in unspecified order; since the comparators below induce a
strict total order on them in every theorem's setting, any correct
comparison sort yields the same sequence — modelled by insertion sort over
the association list. -/
def entriesSortedByKey (e : Enum) : List (GoStr × GoStr) :=
  List.insertionSort keyLe e

/-- `EnumSorter.entriesSortedByTranslationWithSuffix`: `sort.Slice` with
comparator `reverse != (Compare(aTrans, bTrans) < 0)` — ascending by
translated text for `reverse = false`, descending for `reverse = true`. -/
def entriesSortedByTranslation (tr : Translator) (locale suffix : GoStr) :
    Bool → Enum → List (GoStr × GoStr)
  | false, e => List.insertionSort (transLeBy (transOf tr locale suffix)) e
  | true, e => List.insertionSort (transGeBy (transOf tr locale suffix)) e

/-- `EnumSorter.orderColumnWithSortFunction` (the suffix selects the
plain/short/long sorter variant): fall back to the direct ordering when the
translated order equals the key order, to the direct ordering with reversed
direction when it equals the reversed key order, and otherwise emit the
translated entries' enum keys as fixed sort keys. -/
def orderColumnWithSortFunction (mapper : List (GoStr × Enum)) (tr : Translator)
    (suffix path : GoStr) (column : TableSchemaColumn) (direction locale : GoStr) :
    Except GoFail ResolvedOrder :=
  match goMapFind mapper column.colType with
  | none => .error .errored
  | some enum =>
    if entriesSortedByKey enum = entriesSortedByTranslation tr locale suffix false enum then
      .ok ⟨path, direction, none⟩
    else if entriesSortedByKey enum =
        entriesSortedByTranslation tr locale suffix true enum then
      .ok ⟨path, orderReverse direction, none⟩
    else
      .ok ⟨path, direction,
        some ((entriesSortedByTranslation tr locale suffix false enum).map
          (fun entry => GoVal.str entry.1))⟩

/-- Two sorted lists that are permutations of each other are equal, given
antisymmetry of the order on their members. -/
theorem perm_sorted_eq {α : Type} {r : α → α → Prop} :
    ∀ {l₁ l₂ : List α}, List.Perm l₁ l₂ → l₁.Sorted r → l₂.Sorted r →
      (∀ a ∈ l₁, ∀ b ∈ l₁, r a b → r b a → a = b) → l₁ = l₂ := by
  intro l₁
  induction l₁ with
  | nil =>
    intro l₂ hp _ _ _
    exact hp.nil_eq
  | cons a t ih =>
    intro l₂ hp hs₁ hs₂ anti
    cases l₂ with
    | nil => exact absurd hp (by simp)
    | cons b t₂ =>
      have hab : a = b := by
        by_contra hne
        have ha2 : a ∈ b :: t₂ := hp.mem_iff.mp (List.mem_cons_self a t)
        have hb1 : b ∈ a :: t := hp.mem_iff.mpr (List.mem_cons_self b t₂)
        have hat2 : a ∈ t₂ := by
          rcases List.mem_cons.mp ha2 with h | h
          · exact absurd h hne
          · exact h
        have hbt : b ∈ t := by
          rcases List.mem_cons.mp hb1 with h | h
          · exact absurd h.symm hne
          · exact h
        have hrba : r b a := List.rel_of_sorted_cons hs₂ a hat2
        have hrab : r a b := List.rel_of_sorted_cons hs₁ b hbt
        exact hne (anti a (List.mem_cons_self a t) b (List.mem_cons_of_mem a hbt) hrab hrba)
      subst hab
      have hp2 : List.Perm t t₂ := hp.cons_inv
      have := ih hp2 hs₁.of_cons hs₂.of_cons
        (fun x hx y hy => anti x (List.mem_cons_of_mem a hx) y (List.mem_cons_of_mem a hy))
      rw [this]

/-- **C7.**  When the enum's translations under the active locale sort in
exactly the reverse of the enum keys' lexicographic order (the reversed
key-sorted entry sequence is strictly ascending by translated text, and
there are at least two entries so that the reversed order differs from the
forward one), the enum sorter emits the direct ordering on the path with
the requested direction reversed and no sort keys. -/
theorem c7_enum_reverse_shortcut (mapper : List (GoStr × Enum)) (tr : Translator)
    (suffix path : GoStr) (column : TableSchemaColumn) (direction locale : GoStr)
    (enum : Enum)
    (hfind : goMapFind mapper column.colType = some enum)
    (hlen : 2 ≤ enum.length)
    (hrev : ((entriesSortedByKey enum).reverse).Sorted
      (fun a b => StrLt (transOf tr locale suffix a) (transOf tr locale suffix b))) :
    orderColumnWithSortFunction mapper tr suffix path column direction locale =
      .ok ⟨path, orderReverse direction, none⟩ := by
  have hKperm : List.Perm (entriesSortedByKey enum) enum :=
    List.perm_insertionSort keyLe enum
  have hdesc : (entriesSortedByKey enum).Pairwise
      (fun a b => StrLt (transOf tr locale suffix b) (transOf tr locale suffix a)) :=
    List.pairwise_reverse.mp hrev
  have hinj : ∀ a ∈ entriesSortedByKey enum, ∀ b ∈ entriesSortedByKey enum,
      transOf tr locale suffix a = transOf tr locale suffix b → a = b := by
    have hne : (entriesSortedByKey enum).Pairwise
        (fun a b => transOf tr locale suffix a ≠ transOf tr locale suffix b) :=
      hdesc.imp (fun h => fun heq => h.2 heq.symm)
    intro a ha b hb heq
    by_contra hneq
    exact List.Pairwise.forall (fun x y hxy => hxy.symm) hne ha hb hneq heq
  have hKge : (entriesSortedByKey enum).Sorted
      (transGeBy (transOf tr locale suffix)) := hdesc.imp (fun h => h.1)
  have hKD : entriesSortedByKey enum =
      entriesSortedByTranslation tr locale suffix true enum := by
    refine perm_sorted_eq
      (hKperm.trans (List.perm_insertionSort (transGeBy (transOf tr locale suffix)) enum).symm)
      hKge (List.sorted_insertionSort _ enum) ?_
    intro a ha b hb h1 h2
    exact hinj a ha b hb (lexLe_antisymm h2 h1)
  have hKA : ¬ entriesSortedByKey enum =
      entriesSortedByTranslation tr locale suffix false enum := by
    intro he
    have hasc : (entriesSortedByKey enum).Sorted
        (transLeBy (transOf tr locale suffix)) := by
      rw [he]
      exact List.sorted_insertionSort _ enum
    have hlenK : 2 ≤ (entriesSortedByKey enum).length := by
      rw [entriesSortedByKey, List.length_insertionSort]
      exact hlen
    cases hKshape : entriesSortedByKey enum with
    | nil => rw [hKshape] at hlenK; simp at hlenK
    | cons x t1 =>
      cases t1 with
      | nil => rw [hKshape] at hlenK; simp at hlenK
      | cons y rest =>
        rw [hKshape] at hasc hdesc
        have h1 : StrLe (transOf tr locale suffix x) (transOf tr locale suffix y) :=
          (List.pairwise_cons.mp hasc).1 y (List.mem_cons_self y rest)
        have h2 : StrLt (transOf tr locale suffix y) (transOf tr locale suffix x) :=
          (List.pairwise_cons.mp hdesc).1 y (List.mem_cons_self y rest)
        exact h2.2 (lexLe_antisymm h2.1 h1)
  simp only [orderColumnWithSortFunction, hfind, if_neg hKA, if_pos hKD]

/-- The enum, translator and column of the C7 witness: under locale `de`
the translations `z`, `y` of keys `A`, `B` sort in exactly reversed key
order. -/
def c7Enum : Enum := [(gs "A", gs "ta"), (gs "B", gs "tb")]

def c7Translator : Translator := [(gs "de", [(gs "ta", gs "z"), (gs "tb", gs "y")])]

def c7Column : TableSchemaColumn := { zeroColumn with colType := gs "Country" }

/-- Witness for C7: an ASC request on the reverse-translated enum becomes a
direct DESC ordering. -/
theorem c7_enum_reverse_shortcut_witness :
    orderColumnWithSortFunction [(gs "Country", c7Enum)] c7Translator [] (gs "p")
      c7Column orderAsc (gs "de") = .ok ⟨gs "p", orderReverse orderAsc, none⟩ ∧
    orderReverse orderAsc = orderDesc :=
  ⟨c7_enum_reverse_shortcut [(gs "Country", c7Enum)] c7Translator [] (gs "p")
      c7Column orderAsc (gs "de") c7Enum (by decide) (by decide) (by decide),
   by decide⟩

end Tableaux
